import Mathlib

/-!
Verification development for the multi-agent workspace coordination broker.

The definitions below are shallow embeddings of the TypeScript source:
 - `calculateConsensus` from the example runners (MultiAgentExample.ts and
   OllamaMultiAgentExample.ts, identical bodies),
 - the Kafka durable-store producer (`KafkaWorkspaceOrchestrator`),
 - the Redis fast-store lock protocol (`RedisWorkspaceOrchestrator`),
 - the infrastructure bridge health rollup, reconnect supervisor and
   in-process fallback lock manager (`WorkspaceInfrastructureBridge`).

JavaScript numbers are modelled as `Nat`/`ℚ` (all arithmetic in scope is
exact), `Date.now()` is passed in as an explicit `now : Nat`, random
message ids are abstracted away, and the Redis keyspace is modelled as
association lists with explicit expiry timestamps (PX semantics).
-/

namespace Autogen

/-! ## Association-list keyspace primitives (model of the Redis / Map state) -/

/-- Lookup in an association list keyed by strings. -/
def alGet {α : Type} (l : List (String × α)) (k : String) : Option α :=
  match l.find? (fun p => p.1 == k) with
  | some p => some p.2
  | none => none

/-- Remove every binding of key `k`. -/
def alErase {α : Type} (l : List (String × α)) (k : String) : List (String × α) :=
  l.filter (fun p => !(p.1 == k))

/-- Bind key `k` to `v`, replacing any previous binding. -/
def alSet {α : Type} (l : List (String × α)) (k : String) (v : α) : List (String × α) :=
  (k, v) :: alErase l k

/-! ## Consensus tally helper (source: calculateConsensus in both example files) -/

/-- One entry of the vote record passed to `calculateConsensus`:
a map key (agent id) together with its vote string and reasoning string. -/
structure VoteEntry where
  agent : String
  vote : String
  reasoning : String
deriving Repr, DecidableEq

/-- Result record of `calculateConsensus` (proposalId is `consensus_<Date.now()>`
in MultiAgentExample; the `ollama_` variant differs only in that prefixed tag). -/
structure ConsensusResult where
  proposalId : String
  result : String
  confidence : ℚ
  votes : List VoteEntry
deriving Repr, DecidableEq

/-- Shallow embedding of `calculateConsensus`:
counts per vote string, then compares the `agree` / `disagree` counts against
`total / 2` and returns the verdict with its confidence.  JS float division
is modelled by exact rational division. -/
def calculateConsensus (votes : List VoteEntry) (now : Nat) : ConsensusResult :=
  let total := votes.length
  let agree := (votes.filter (fun v => v.vote == "agree")).length
  let disagree := (votes.filter (fun v => v.vote == "disagree")).length
  if (agree : ℚ) > (total : ℚ) / 2 then
    ⟨"consensus_" ++ toString now, "approved", (agree : ℚ) / (total : ℚ), votes⟩
  else if (disagree : ℚ) > (total : ℚ) / 2 then
    ⟨"consensus_" ++ toString now, "rejected", (disagree : ℚ) / (total : ℚ), votes⟩
  else
    ⟨"consensus_" ++ toString now, "deadlock", 1 / 2, votes⟩

/-! ## Bridge health rollup (source: WorkspaceInfrastructureBridge) -/

/-- Overall health as computed by `updateOverallHealth`. -/
inductive Overall where
  | healthy
  | degraded
  | offline
deriving Repr, DecidableEq

/-- The slice of `healthStatus` relevant to the rollup law. -/
structure BridgeHealth where
  redisConnected : Bool
  redisErrorCount : Nat
  kafkaConnected : Bool
  kafkaErrorCount : Nat
  overall : Overall
deriving Repr, DecidableEq

/-- Initial `healthStatus` from the bridge constructor. -/
def initHealth : BridgeHealth :=
  ⟨false, 0, false, 0, Overall.offline⟩

/-- Shallow embedding of `updateOverallHealth`. -/
def updateOverallHealth (s : BridgeHealth) : BridgeHealth :=
  if s.redisConnected && s.kafkaConnected then { s with overall := Overall.healthy }
  else if s.redisConnected || s.kafkaConnected then { s with overall := Overall.degraded }
  else { s with overall := Overall.offline }

/-- Connection transitions observed by the bridge (the `connected`,
`disconnected` and `error` handlers registered on each orchestrator). -/
inductive HealthEvent where
  | redisConnected
  | redisDisconnected
  | redisError
  | kafkaConnected
  | kafkaDisconnected
  | kafkaError
deriving Repr, DecidableEq

/-- Effect of each connection event handler on the health record
(source: setupRedisEventHandlers / setupKafkaEventHandlers,
handleRedisError / handleKafkaError; each handler ends by calling
`updateOverallHealth`). -/
def healthStep (s : BridgeHealth) (e : HealthEvent) : BridgeHealth :=
  match e with
  | HealthEvent.redisConnected =>
      updateOverallHealth { s with redisConnected := true, redisErrorCount := 0 }
  | HealthEvent.redisDisconnected =>
      updateOverallHealth { s with redisConnected := false }
  | HealthEvent.redisError =>
      updateOverallHealth { s with redisConnected := false, redisErrorCount := s.redisErrorCount + 1 }
  | HealthEvent.kafkaConnected =>
      updateOverallHealth { s with kafkaConnected := true, kafkaErrorCount := 0 }
  | HealthEvent.kafkaDisconnected =>
      updateOverallHealth { s with kafkaConnected := false }
  | HealthEvent.kafkaError =>
      updateOverallHealth { s with kafkaConnected := false, kafkaErrorCount := s.kafkaErrorCount + 1 }

/-- Run a sequence of connection transitions from the initial bridge state. -/
def runHealth (evs : List HealthEvent) : BridgeHealth :=
  evs.foldl healthStep initHealth

/-! ## Kafka durable-store producer (source: KafkaWorkspaceOrchestrator) -/

/-- Extraction of the decimal digit run: models JS `parseInt` on the capture
of `/round_(\d+)/` (exact integer semantics). -/
def digitsToNat (ds : List Char) : Nat :=
  ds.foldl (fun n c => n * 10 + (c.toNat - 48)) 0

/-- The literal characters of the pattern `round_`. -/
def roundTok : List Char := ['r', 'o', 'u', 'n', 'd', '_']

/-- Longest digit run at the head of the list (the greedy `\d+`). -/
def takeDigits : List Char → List Char
  | [] => []
  | c :: cs => if c.isDigit then c :: takeDigits cs else []

/-- Does `p` occur literally at the head of `l`? -/
def startsWithChars : List Char → List Char → Bool
  | [], _ => true
  | _ :: _, [] => false
  | p :: ps, c :: cs => if p = c then startsWithChars ps cs else false

/-- Try to match `round_(\d+)` anchored at the head of `l`;
on success return the captured digit run. -/
def matchRoundHere (l : List Char) : Option (List Char) :=
  if startsWithChars roundTok l then
    match takeDigits (l.drop 6) with
    | [] => none
    | d :: ds => some (d :: ds)
  else none

/-- Leftmost match of `round_(\d+)` in `l` (JS `String.prototype.match`
with a non-global regex scans positions left to right). -/
def jsMatchRound : List Char → Option (List Char)
  | [] => none
  | c :: cs =>
      match matchRoundHere (c :: cs) with
      | some ds => some ds
      | none => jsMatchRound cs

/-- Shallow embedding of `extractConsensusRound`:
`proposalId.match(/round_(\d+)/)` and `parseInt` of the capture, default 1. -/
def extractConsensusRound (proposalId : String) : Nat :=
  match jsMatchRound proposalId.data with
  | some ds => digitsToNat ds
  | none => 1

/-- Claim-side occurrence predicate: the pattern `round_` followed by at least
one digit occurs in `l` immediately after the prefix `a`. -/
def RoundOccursAt (l a : List Char) : Prop :=
  ∃ d b, l = a ++ roundTok ++ d :: b ∧ d.isDigit = true

/-- The durable-store producer calls carried by the orchestrator, with the
arguments that feed the message metadata.  Payload maps are opaque to every
claim in scope and are not modelled. -/
inductive DurableOp where
  | fileEdit (agentId workspaceId sessionId filePath : String)
  | snapshot (agentId workspaceId sessionId : String)
  | consensusDecision (agentId workspaceId sessionId proposalId : String)
  | coordination (agentId workspaceId sessionId coordType : String)
    (targetAgent : Option String) (prio : String)
  | conflictResolution (agentId workspaceId sessionId conflictId : String)
  | sessionStart (agentId workspaceId sessionId : String)
  | sessionEnd (agentId workspaceId sessionId : String)
deriving Repr, DecidableEq

/-- The fields of `WorkspaceKafkaMessage` (plus the topic it is published to)
relevant to the claims; the random id suffix and payload are abstracted. -/
structure KafkaMessage where
  topic : String
  type : String
  source : String
  target : Option String
  priority : String
  mdAgentId : String
  mdWorkspaceId : String
  mdSessionId : String
  mdFilePath : Option String
  mdCorrelationId : Option String
  sequenceNumber : Nat
  requiresResponse : Option Bool
  consensusRound : Option Nat
deriving Repr, DecidableEq

/-- Shallow embedding of `getNextSequence` (`return ++this.sequenceNumber`). -/
def getNextSequence (st : Nat) : Nat × Nat :=
  (st + 1, st + 1)

/-- One durable-store producer call: threads the per-instance sequence counter
and builds the published envelope exactly as the corresponding method does
(logFileEdit, saveWorkspaceSnapshot, logConsensusDecision,
logAgentCoordination, logConflictResolution, startWorkspaceSession,
endWorkspaceSession). -/
def produce (now st : Nat) (op : DurableOp) : Nat × KafkaMessage :=
  match op with
  | DurableOp.fileEdit ag ws sess path =>
      let (st2, seq) := getNextSequence st
      (st2, ⟨"autogen-edit-history", "edit_history", ag, none, "high",
             ag, ws, sess, some path,
             some ("edit_" ++ ws ++ "_" ++ path ++ "_" ++ toString now),
             seq, none, none⟩)
  | DurableOp.snapshot ag ws sess =>
      let (st2, seq) := getNextSequence st
      (st2, ⟨"autogen-workspace-snapshots", "workspace_snapshot", ag, none, "medium",
             ag, ws, sess, none,
             some ("snapshot_" ++ ws ++ "_" ++ toString now),
             seq, none, none⟩)
  | DurableOp.consensusDecision ag ws sess pid =>
      let (st2, seq) := getNextSequence st
      (st2, ⟨"autogen-consensus-decisions", "consensus_decision", ag, none, "high",
             ag, ws, sess, none,
             some ("consensus_" ++ pid),
             seq, none, some (extractConsensusRound pid)⟩)
  | DurableOp.coordination ag ws sess ctype target prio =>
      let (st2, seq) := getNextSequence st
      (st2, ⟨"autogen-agent-coordination", "agent_coordination", ag, target, prio,
             ag, ws, sess, none,
             some ("coord_" ++ ws ++ "_" ++ toString now),
             seq, some (decide (ctype = "delegation")), none⟩)
  | DurableOp.conflictResolution ag ws sess cid =>
      let (st2, seq) := getNextSequence st
      (st2, ⟨"autogen-conflict-resolution", "conflict_resolution", ag, none, "high",
             ag, ws, sess, none, some cid, seq, none, none⟩)
  | DurableOp.sessionStart ag ws sess =>
      let (st2, seq) := getNextSequence st
      (st2, ⟨"autogen-session-management", "workspace_snapshot", ag, none, "high",
             ag, ws, sess, none, some ("session_" ++ sess), seq, none, none⟩)
  | DurableOp.sessionEnd ag ws sess =>
      let (st2, seq) := getNextSequence st
      (st2, ⟨"autogen-session-management", "workspace_snapshot", ag, none, "high",
             ag, ws, sess, none, some ("session_" ++ sess), seq, none, none⟩)

/-- The list of messages produced by a sequence of durable-store calls on one
orchestrator instance, threading the sequence counter. -/
def produceTrace (now : Nat) : Nat → List DurableOp → List KafkaMessage
  | _, [] => []
  | st, op :: ops =>
      let r := produce now st op
      r.2 :: produceTrace now r.1 ops

/-! ## Redis fast-store lock protocol (source: RedisWorkspaceOrchestrator) -/

/-- The JSON lock record written at a lock key (`lockValue` in
`requestFileLock`). -/
structure LockRecord where
  agentId : String
  lockType : String
  timestamp : Nat
  workspaceId : String
  filePath : String
deriving Repr, DecidableEq

/-- The JSON record pushed onto a waiters queue (`queueLockRequest`). -/
structure QueueRequest where
  agentId : String
  lockType : String
  timestamp : Nat
  workspaceId : String
  filePath : String
deriving Repr, DecidableEq

/-- The Redis keyspace slice used by the lock protocol: string keys holding a
lock record together with its absolute expiry (PX), set keys (readers sets)
and list keys (waiters queues). -/
structure RedisState where
  strings : List (String × (LockRecord × Nat))
  sets : List (String × List String)
  lists : List (String × List QueueRequest)
deriving Repr, DecidableEq

/-- The empty keyspace. -/
def emptyRedis : RedisState := ⟨[], [], []⟩

/-- GET on a lock key: an entry whose expiry has passed is absent. -/
def redisGet (s : RedisState) (now : Nat) (k : String) : Option LockRecord :=
  match alGet s.strings k with
  | some v => if now < v.2 then some v.1 else none
  | none => none

/-- SET with PX expiry. -/
def redisSet (s : RedisState) (k : String) (v : LockRecord) (expiresAt : Nat) : RedisState :=
  { s with strings := alSet s.strings k (v, expiresAt) }

/-- SET with NX and PX: only writes when the key is (live-)absent; returns
whether the write happened. -/
def redisSetNX (s : RedisState) (now : Nat) (k : String) (v : LockRecord)
    (expiresAt : Nat) : RedisState × Bool :=
  match redisGet s now k with
  | some _ => (s, false)
  | none => (redisSet s k v expiresAt, true)

/-- DEL of a string key. -/
def redisDel (s : RedisState) (k : String) : RedisState :=
  { s with strings := alErase s.strings k }

/-- Members of a set key (absent key reads as the empty set). -/
def sMembers (s : RedisState) (k : String) : List String :=
  (alGet s.sets k).getD []

/-- SADD of one member; returns the number of members actually added (0 or 1). -/
def redisSadd (s : RedisState) (k m : String) : RedisState × Nat :=
  let cur := sMembers s k
  if m ∈ cur then (s, 0)
  else ({ s with sets := alSet s.sets k (m :: cur) }, 1)

/-- SREM of one member; returns the number of members actually removed. -/
def redisSrem (s : RedisState) (k m : String) : RedisState × Nat :=
  let cur := sMembers s k
  if m ∈ cur then
    ({ s with sets := alSet s.sets k (cur.filter (fun x => !(x == m))) }, 1)
  else (s, 0)

/-- SCARD of a set key. -/
def redisScard (s : RedisState) (k : String) : Nat :=
  (sMembers s k).length

/-- DEL of a set key. -/
def redisSdel (s : RedisState) (k : String) : RedisState :=
  { s with sets := alErase s.sets k }

/-- LPUSH of one entry. -/
def redisLpush (s : RedisState) (k : String) (r : QueueRequest) : RedisState :=
  { s with lists := alSet s.lists k (r :: (alGet s.lists k).getD []) }

/-- RPOP: removes and returns the rightmost (oldest-pushed) entry. -/
def redisRpop (s : RedisState) (k : String) : RedisState × Option QueueRequest :=
  let cur := (alGet s.lists k).getD []
  match cur.getLast? with
  | some r => ({ s with lists := alSet s.lists k cur.dropLast }, some r)
  | none => (s, none)

/-- The fixed key and stream name constants of the orchestrator
(WORKSPACE_STREAM_PATTERNS). -/
def ACTIVE_LOCKS : String := "autogen:state:locks"

/-- Waiters queue key root (WORKSPACE_STREAM_PATTERNS.EDIT_QUEUE). -/
def EDIT_QUEUE : String := "autogen:state:edit_queue"

/-- Lock event stream name (WORKSPACE_STREAM_PATTERNS.FILE_LOCKS). -/
def FILE_LOCKS : String := "autogen:locks"

/-- The fields of `WorkspaceStreamMessage` built by `publishLockEvent`
(the random id and `Date.now()` timestamp are abstracted). -/
structure StreamMessage where
  type : String
  source : String
  priority : String
  payloadEventType : String
  payloadLockType : String
  mdAgentId : String
  mdWorkspaceId : String
  mdFilePath : String
  mdLockType : String
deriving Repr, DecidableEq

/-- Shallow embedding of `publishLockEvent`: the envelope published to the
`FILE_LOCKS` stream. -/
def publishLockEvent (eventType agentId workspaceId filePath lockType : String) :
    StreamMessage :=
  ⟨"file_lock", agentId, "high", eventType, lockType,
   agentId, workspaceId, filePath, lockType⟩

/-- Observable outputs of the lock protocol: messages published to a stream
and `lock_retry` events emitted to the bridge. -/
inductive RedisEvent where
  | stream (streamName : String) (m : StreamMessage)
  | lockRetry (r : QueueRequest)
deriving Repr, DecidableEq

/-- Split a character list at the first occurrence of the token `tok`,
returning the part before it and the part after it. -/
def breakAtTok (tok : List Char) : List Char → Option (List Char × List Char)
  | [] => none
  | c :: cs =>
      if startsWithChars tok (c :: cs) then some ([], (c :: cs).drop tok.length)
      else
        match breakAtTok tok cs with
        | some (pre, post) => some (c :: pre, post)
        | none => none

/-- The literal characters of the reader-slot marker `:readers:`. -/
def readersTok : List Char := [':', 'r', 'e', 'a', 'd', 'e', 'r', 's', ':']

/-- Does the lock id denote a reader slot, i.e. `lockId.includes(':readers:')`? -/
def containsReaders (lockId : String) : Bool :=
  (breakAtTok readersTok lockId.data).isSome

/-- The base key of a reader-scoped lock id:
`lockId.replace(/:readers:.*$/, '')` keeps everything before the first
occurrence of `:readers:` (and is the identity when there is none). -/
def readersBaseKey (lockId : String) : String :=
  match breakAtTok readersTok lockId.data with
  | some (pre, _) => String.mk pre
  | none => lockId

/-- Split a character list on a separator character (semantics of JS
`String.prototype.split` with a single-character separator, and of Lean's
`String.splitOn`). -/
def splitOnChar (sep : Char) : List Char → List (List Char)
  | [] => [[]]
  | c :: cs =>
      if c = sep then [] :: splitOnChar sep cs
      else
        match splitOnChar sep cs with
        | h :: t => (c :: h) :: t
        | [] => [[c]]

/-- The `lockKey.split(':')` of `processLockQueue`. -/
def splitOnColon (s : String) : List String :=
  (splitOnChar ':' s.data).map (fun l => String.mk l)

/-- Shallow embedding of `queueLockRequest`: LPUSH the request JSON onto the
per-(workspace, file) waiters queue. -/
def queueLockRequest (s : RedisState) (agentId workspaceId filePath lockType : String)
    (now : Nat) : RedisState :=
  let queueKey := EDIT_QUEUE ++ ":" ++ workspaceId ++ ":" ++ filePath
  redisLpush s queueKey ⟨agentId, lockType, now, workspaceId, filePath⟩

/-- Shallow embedding of `processLockQueue`: split the lock key on `:`, read
`parts[2]` as the workspace id and `parts.slice(3).join(':')` as the file
path, RPOP one entry from the resulting queue key and emit it as a
`lock_retry` event. -/
def processLockQueue (s : RedisState) (lockKey : String) : RedisState × List RedisEvent :=
  let parts := splitOnColon lockKey
  if parts.length < 4 then (s, [])
  else
    let workspaceId := parts.getD 2 ""
    let filePath := String.intercalate ":" (parts.drop 3)
    let queueKey := EDIT_QUEUE ++ ":" ++ workspaceId ++ ":" ++ filePath
    match redisRpop s queueKey with
    | (s2, some r) => (s2, [RedisEvent.lockRetry r])
    | (s2, none) => (s2, [])

/-- Shallow embedding of `requestFileLock`.  Returns the updated keyspace, the
published events in order, and the lock id (or `none` on conflict). -/
def requestFileLock (s : RedisState) (agentId workspaceId filePath lockType : String)
    (now timeoutMs : Nat) : RedisState × List RedisEvent × Option String :=
  let lockKey := ACTIVE_LOCKS ++ ":" ++ workspaceId ++ ":" ++ filePath
  let lockValue : LockRecord := ⟨agentId, lockType, now, workspaceId, filePath⟩
  match redisGet s now lockKey with
  | some lock =>
      if lockType = "read" ∧ lock.lockType = "read" then
        let r := redisSadd s (lockKey ++ ":readers") agentId
        if r.2 ≠ 0 then
          (r.1,
           [RedisEvent.stream FILE_LOCKS
              (publishLockEvent "lock_acquired" agentId workspaceId filePath lockType)],
           some (lockKey ++ ":readers:" ++ agentId))
        else
          (queueLockRequest r.1 agentId workspaceId filePath lockType now, [], none)
      else
        (queueLockRequest s agentId workspaceId filePath lockType now, [], none)
  | none =>
      if lockType = "read" then
        let r := redisSadd s (lockKey ++ ":readers") agentId
        let s2 := redisSet r.1 lockKey lockValue (now + timeoutMs)
        (s2,
         [RedisEvent.stream FILE_LOCKS
            (publishLockEvent "lock_acquired" agentId workspaceId filePath lockType)],
         some (lockKey ++ ":readers:" ++ agentId))
      else
        let r := redisSetNX s now lockKey lockValue (now + timeoutMs)
        if r.2 then
          (r.1,
           [RedisEvent.stream FILE_LOCKS
              (publishLockEvent "lock_acquired" agentId workspaceId filePath lockType)],
           some lockKey)
        else (r.1, [], none)

/-- Shallow embedding of `releaseFileLock`.  Returns the updated keyspace, the
published events in order, and the boolean result. -/
def releaseFileLock (s : RedisState) (lockId agentId : String) (now : Nat) :
    RedisState × List RedisEvent × Bool :=
  if containsReaders lockId then
    let baseKey := readersBaseKey lockId
    let r := redisSrem s (baseKey ++ ":readers") agentId
    let remaining := redisScard r.1 (baseKey ++ ":readers")
    let s2 := if remaining = 0 then redisDel (redisSdel r.1 (baseKey ++ ":readers")) baseKey else r.1
    if r.2 ≠ 0 then
      let q := processLockQueue s2 baseKey
      (q.1,
       RedisEvent.stream FILE_LOCKS (publishLockEvent "lock_released" agentId "" "" "read")
         :: q.2,
       true)
    else (s2, [], false)
  else
    match redisGet s now lockId with
    | some lock =>
        if lock.agentId = agentId then
          let s1 := redisDel s lockId
          let q := processLockQueue s1 lockId
          (q.1,
           RedisEvent.stream FILE_LOCKS
               (publishLockEvent "lock_released" agentId lock.workspaceId lock.filePath lock.lockType)
             :: q.2,
           true)
        else (s, [], false)
    | none => (s, [], false)

/-! ## In-process fallback lock manager (source: WorkspaceInfrastructureBridge) -/

/-- A fallback lock record stored in `fallbackStorage`; `readers` is absent
until the first sharing read joins. -/
structure FallbackLock where
  agentId : String
  lockType : String
  timestamp : Nat
  workspaceId : String
  filePath : String
  readers : Option (List String)
deriving Repr, DecidableEq

/-- Shallow embedding of `fallbackFileLock`. -/
def fallbackFileLock (storage : List (String × FallbackLock))
    (agentId workspaceId filePath lockType : String) (now : Nat) :
    List (String × FallbackLock) × Option String :=
  let lockKey := workspaceId ++ ":" ++ filePath
  match alGet storage lockKey with
  | some existingLock =>
      if lockType = "read" ∧ existingLock.lockType = "read" then
        let rs := (existingLock.readers.getD []) ++ [agentId]
        (alSet storage lockKey { existingLock with readers := some rs },
         some (lockKey ++ ":readers:" ++ agentId))
      else (storage, none)
  | none =>
      (alSet storage lockKey ⟨agentId, lockType, now, workspaceId, filePath, none⟩,
       some lockKey)

/-- Shallow embedding of `fallbackLockRelease`. -/
def fallbackLockRelease (storage : List (String × FallbackLock))
    (lockId agentId : String) : List (String × FallbackLock) × Bool :=
  if containsReaders lockId then
    let baseKey := readersBaseKey lockId
    match alGet storage baseKey with
    | some lock =>
        match lock.readers with
        | some rs =>
            let rs2 := rs.filter (fun id => !(id == agentId))
            if rs2.isEmpty then (alErase storage baseKey, true)
            else (alSet storage baseKey { lock with readers := some rs2 }, true)
        | none => (storage, false)
    | none => (storage, false)
  else
    match alGet storage lockId with
    | some lock =>
        if lock.agentId = agentId then (alErase storage lockId, true)
        else (storage, false)
    | none => (storage, false)

/-! ## Reconnect supervisor (source: WorkspaceInfrastructureBridge.attemptReconnect) -/

/-- Per-service reconnect bookkeeping: the `reconnectAttempts` counter and the
`reconnectInProgress` guard. -/
structure ReconnectState where
  attempts : Nat
  inProgress : Bool
deriving Repr, DecidableEq

/-- Observable reconnect activity. -/
inductive RecEvent where
  | scheduled (delayMs : Nat)
  | connectInvoked
  | attemptFailed (attemptNumber : Nat)
  | reconnectFailed
deriving Repr, DecidableEq

/-- Shallow embedding of `attemptReconnect` under the interleaving in which
every scheduled `connect()` call fails (the failure chain of the claim).
Following the source: a call bails out when a reconnect is in flight; when the
counter has reached `maxAttempts` it emits the terminal `reconnect_failed` and
returns; otherwise it increments the counter, sets the in-flight guard and
schedules a connect after `delayMs * (attempts + 1)`.  When that connect
fails, `reconnect_attempt_failed` is emitted and, if the counter is still
below the cap, the guard is dropped and `attemptReconnect` is re-entered; the
`finally` clause drops the guard in every case.  `fuel` is only a structural
termination measure: every behaviour is reached with `fuel ≥ maxAttempts -
attempts`. -/
def attemptReconnectAllFail (maxAttempts delayMs : Nat) :
    Nat → ReconnectState → ReconnectState × List RecEvent
  | fuelArg, s =>
    if s.inProgress then (s, [])
    else if s.attempts ≥ maxAttempts then (s, [RecEvent.reconnectFailed])
    else
      match fuelArg with
      | 0 => (s, [])
      | fuel + 1 =>
        let a := s.attempts
        let chainHead := [RecEvent.scheduled (delayMs * (a + 1)),
                          RecEvent.connectInvoked,
                          RecEvent.attemptFailed (a + 1)]
        if a + 1 < maxAttempts then
          let r := attemptReconnectAllFail maxAttempts delayMs fuel ⟨a + 1, false⟩
          (⟨r.1.attempts, false⟩, chainHead ++ r.2)
        else
          (⟨a + 1, false⟩, chainHead)

/-- The backoff delays scheduled along a reconnect event trace. -/
def delaysOf (evs : List RecEvent) : List Nat :=
  evs.filterMap (fun e =>
    match e with
    | RecEvent.scheduled d => some d
    | _ => none)

/-- Closed form of the event trace of the failure chain: `n` further attempts
starting from counter value `a0`. -/
def chainEvents (delayMs a0 : Nat) : Nat → List RecEvent
  | 0 => []
  | n + 1 =>
      RecEvent.scheduled (delayMs * (a0 + 1)) :: RecEvent.connectInvoked ::
        RecEvent.attemptFailed (a0 + 1) :: chainEvents delayMs (a0 + 1) n

/-! ## Concrete states used to evaluate the protocol at specific inputs -/

/-- A keyspace holding one live exclusive (write) lock on `(ws1, a.ts)` held
by agent `W`. -/
def exclusiveHeldState : RedisState :=
  ⟨[("autogen:state:locks:ws1:a.ts", (⟨"W", "write", 0, "ws1", "a.ts"⟩, 1000))], [], []⟩

/-- A keyspace holding one live readers lock on `(ws1, a.ts)` with readers
set `{A}` (exactly the state produced by one read acquisition). -/
def readersHeldState : RedisState :=
  ⟨[("autogen:state:locks:ws1:a.ts", (⟨"A", "read", 0, "ws1", "a.ts"⟩, 1000))],
   [("autogen:state:locks:ws1:a.ts:readers", ["A"])], []⟩

/-- The rollup invariant recomputed by `updateOverallHealth`: the overall
health is healthy, degraded or offline exactly according to the two
connected flags. -/
def HealthRollupOk (s : BridgeHealth) : Prop :=
  (s.overall = Overall.healthy ↔ s.redisConnected = true ∧ s.kafkaConnected = true) ∧
  (s.overall = Overall.offline ↔ s.redisConnected = false ∧ s.kafkaConnected = false) ∧
  (s.overall = Overall.degraded ↔ s.redisConnected ≠ s.kafkaConnected)

/-! ## Theorems -/

/-- C1: the claim fails on the code.  With an exclusive write lock on
`(ws1, a.ts)` held by agent `W`, a release call by agent `B` presenting the
reader-scoped lock id `...:readers:B` (whose holder `B` is not: `B` is not in
the — empty — readers set) returns false as claimed, but the cleanup branch
runs even though `srem` removed nothing, and it deletes `W`'s exclusive lock
record: a key is deleted, contradicting the claim. -/
theorem release_unauthorized_reader_id_deletes_foreign_record :
    (releaseFileLock exclusiveHeldState
        "autogen:state:locks:ws1:a.ts:readers:B" "B" 5).2.2 = false ∧
    redisGet exclusiveHeldState 5 "autogen:state:locks:ws1:a.ts" =
      some ⟨"W", "write", 0, "ws1", "a.ts"⟩ ∧
    redisGet (releaseFileLock exclusiveHeldState
        "autogen:state:locks:ws1:a.ts:readers:B" "B" 5).1 5
      "autogen:state:locks:ws1:a.ts" = none := by
  decide

/-- C2: the claim fails on the code.  Agent `A` acquires a read lock on
`(ws1, a.ts)`; a second read request by `A` on the same file hits the
readers branch, but `sadd` returns 0 for an already-present member, so the
guard treats it as a conflict: the call returns null and enqueues `A` as a
waiter (the readers set itself is unchanged). -/
theorem reentrant_read_conflicts_and_enqueues :
    (requestFileLock emptyRedis "A" "ws1" "a.ts" "read" 0 1000).2.2 =
      some "autogen:state:locks:ws1:a.ts:readers:A" ∧
    (requestFileLock (requestFileLock emptyRedis "A" "ws1" "a.ts" "read" 0 1000).1
        "A" "ws1" "a.ts" "read" 1 1000).2.2 = none ∧
    alGet (requestFileLock (requestFileLock emptyRedis "A" "ws1" "a.ts" "read" 0 1000).1
        "A" "ws1" "a.ts" "read" 1 1000).1.lists "autogen:state:edit_queue:ws1:a.ts" =
      some [⟨"A", "read", 1, "ws1", "a.ts"⟩] ∧
    sMembers (requestFileLock (requestFileLock emptyRedis "A" "ws1" "a.ts" "read" 0 1000).1
        "A" "ws1" "a.ts" "read" 1 1000).1 "autogen:state:locks:ws1:a.ts:readers" = ["A"] := by
  decide

/-- C3: the claim fails on the code.  Agent `A` holds a write lock on
`(ws1, a.ts)` and agent `B`'s write request is enqueued at
`autogen:state:edit_queue:ws1:a.ts`.  `A`'s successful release publishes the
`lock_released` envelope, but `processLockQueue` splits the lock key on `:`
and reads `parts[2]` — the literal segment `locks` — as the workspace id, so
it pops from `autogen:state:edit_queue:locks:ws1:a.ts`: no `lock_retry` is
emitted and `B`'s entry is never drained. -/
theorem successful_release_drains_no_waiter :
    (requestFileLock (requestFileLock emptyRedis "A" "ws1" "a.ts" "write" 0 1000).1
        "B" "ws1" "a.ts" "write" 1 1000).2.2 = none ∧
    (releaseFileLock (requestFileLock (requestFileLock emptyRedis
          "A" "ws1" "a.ts" "write" 0 1000).1 "B" "ws1" "a.ts" "write" 1 1000).1
        "autogen:state:locks:ws1:a.ts" "A" 2).2.2 = true ∧
    (releaseFileLock (requestFileLock (requestFileLock emptyRedis
          "A" "ws1" "a.ts" "write" 0 1000).1 "B" "ws1" "a.ts" "write" 1 1000).1
        "autogen:state:locks:ws1:a.ts" "A" 2).2.1 =
      [RedisEvent.stream FILE_LOCKS
        (publishLockEvent "lock_released" "A" "ws1" "a.ts" "write")] ∧
    alGet (releaseFileLock (requestFileLock (requestFileLock emptyRedis
          "A" "ws1" "a.ts" "write" 0 1000).1 "B" "ws1" "a.ts" "write" 1 1000).1
        "autogen:state:locks:ws1:a.ts" "A" 2).1.lists
      "autogen:state:edit_queue:ws1:a.ts" = some [⟨"B", "write", 1, "ws1", "a.ts"⟩] := by
  decide

/-- Auxiliary: an entry counts for at most one of the agree / disagree tallies. -/
theorem agree_add_disagree_le (votes : List VoteEntry) :
    (votes.filter (fun v => v.vote == "agree")).length
      + (votes.filter (fun v => v.vote == "disagree")).length ≤ votes.length := by
  induction votes with
  | nil => simp
  | cons v vs ih =>
      by_cases h1 : v.vote = "agree"
      · have h2 : ¬ v.vote = "disagree" := by simp [h1]
        simp only [List.filter_cons, List.length_cons, h1, h2]
        simp
        omega
      · by_cases h2 : v.vote = "disagree"
        · simp only [List.filter_cons, List.length_cons, h1, h2]
          simp
          omega
        · simp only [List.filter_cons, List.length_cons, h1, h2]
          simp [h1, h2]
          omega

/-- Auxiliary: the JS comparison `count > total / 2` over exact rationals is
the integer comparison `2 * count > total`. -/
theorem gtHalf_iff (a N : Nat) : ((a : ℚ) > (N : ℚ) / 2) ↔ 2 * a > N := by
  rw [gt_iff_lt, div_lt_iff (by norm_num : (0 : ℚ) < 2)]
  constructor
  · intro h
    exact_mod_cast (by linarith : (N : ℚ) < 2 * a)
  · intro h
    have h2 : (N : ℚ) < 2 * a := by exact_mod_cast h
    linarith

/-- Auxiliary: the verdict and confidence depend only on the agents and vote
strings, never on the reasoning strings. -/
theorem calculateConsensus_proj_eq (v1 v2 : List VoteEntry) (now : Nat)
    (h : v1.map (fun v => (v.agent, v.vote)) = v2.map (fun v => (v.agent, v.vote))) :
    (calculateConsensus v1 now).result = (calculateConsensus v2 now).result ∧
    (calculateConsensus v1 now).confidence = (calculateConsensus v2 now).confidence := by
  have hlen : v1.length = v2.length := by
    have h2 := congrArg List.length h
    simpa using h2
  have hcount : ∀ w : String,
      (v1.filter (fun v => v.vote == w)).length = (v2.filter (fun v => v.vote == w)).length := by
    intro w
    have e1 : (v1.filter (fun v => v.vote == w)).length
        = (v1.map (fun v => (v.agent, v.vote))).countP (fun x => x.2 == w) := by
      rw [List.countP_map]
      rw [← List.countP_eq_length_filter]
      rfl
    have e2 : (v2.filter (fun v => v.vote == w)).length
        = (v2.map (fun v => (v.agent, v.vote))).countP (fun x => x.2 == w) := by
      rw [List.countP_map]
      rw [← List.countP_eq_length_filter]
      rfl
    rw [e1, e2, h]
  simp only [calculateConsensus]
  rw [hlen, hcount "agree", hcount "disagree"]
  split_ifs <;> exact ⟨rfl, rfl⟩

/-- C4: for N = votes.size the tally helper returns `approved` iff
`2 * agree > N` (confidence `agree / N`), `rejected` iff `2 * disagree > N`
(confidence `disagree / N`), `deadlock` otherwise (confidence 1/2); the
confidence always lies in [1/2, 1]; and the verdict and confidence are
independent of the reasoning strings. -/
theorem calculateConsensus_tally_law (votes : List VoteEntry) (now : Nat) :
    ((calculateConsensus votes now).result = "approved" ↔
        2 * (votes.filter (fun v => v.vote == "agree")).length > votes.length) ∧
    ((calculateConsensus votes now).result = "rejected" ↔
        2 * (votes.filter (fun v => v.vote == "disagree")).length > votes.length) ∧
    ((calculateConsensus votes now).result = "deadlock" ↔
        (¬ 2 * (votes.filter (fun v => v.vote == "agree")).length > votes.length ∧
         ¬ 2 * (votes.filter (fun v => v.vote == "disagree")).length > votes.length)) ∧
    (2 * (votes.filter (fun v => v.vote == "agree")).length > votes.length →
        (calculateConsensus votes now).confidence =
          ((votes.filter (fun v => v.vote == "agree")).length : ℚ) / (votes.length : ℚ)) ∧
    (2 * (votes.filter (fun v => v.vote == "disagree")).length > votes.length →
        (calculateConsensus votes now).confidence =
          ((votes.filter (fun v => v.vote == "disagree")).length : ℚ) / (votes.length : ℚ)) ∧
    ((¬ 2 * (votes.filter (fun v => v.vote == "agree")).length > votes.length ∧
      ¬ 2 * (votes.filter (fun v => v.vote == "disagree")).length > votes.length) →
        (calculateConsensus votes now).confidence = 1 / 2) ∧
    ((1 : ℚ) / 2 ≤ (calculateConsensus votes now).confidence ∧
        (calculateConsensus votes now).confidence ≤ 1) ∧
    (∀ votes2 : List VoteEntry,
        votes2.map (fun v => (v.agent, v.vote)) = votes.map (fun v => (v.agent, v.vote)) →
        (calculateConsensus votes2 now).result = (calculateConsensus votes now).result ∧
        (calculateConsensus votes2 now).confidence = (calculateConsensus votes now).confidence) := by
  have hsum := agree_add_disagree_le votes
  have haN : (votes.filter (fun v => v.vote == "agree")).length ≤ votes.length :=
    List.length_filter_le _ _
  have hdN : (votes.filter (fun v => v.vote == "disagree")).length ≤ votes.length :=
    List.length_filter_le _ _
  by_cases hA2 : 2 * (votes.filter (fun v => v.vote == "agree")).length > votes.length
  · have hcondA : ((votes.filter (fun v => v.vote == "agree")).length : ℚ) >
        (votes.length : ℚ) / 2 := (gtHalf_iff _ _).mpr hA2
    have hnD2 : ¬ 2 * (votes.filter (fun v => v.vote == "disagree")).length > votes.length := by
      omega
    have hNpos : 0 < votes.length := by omega
    have hNQ : (0 : ℚ) < (votes.length : ℚ) := by exact_mod_cast hNpos
    have hcc : calculateConsensus votes now =
        ⟨"consensus_" ++ toString now, "approved",
         ((votes.filter (fun v => v.vote == "agree")).length : ℚ) / (votes.length : ℚ),
         votes⟩ := by
      simp only [calculateConsensus]
      rw [if_pos hcondA]
    refine ⟨?_, ?_, ?_, ?_, ?_, ?_, ?_, ?_⟩
    · rw [hcc]
      exact ⟨fun _ => hA2, fun _ => rfl⟩
    · rw [hcc]
      exact ⟨fun hcontra => by simp at hcontra, fun hcontra => absurd hcontra hnD2⟩
    · rw [hcc]
      exact ⟨fun hcontra => by simp at hcontra, fun hcontra => absurd hA2 hcontra.1⟩
    · intro _
      rw [hcc]
    · intro hcontra
      exact absurd hcontra hnD2
    · intro hcontra
      exact absurd hA2 hcontra.1
    · rw [hcc]
      show (1 : ℚ) / 2 ≤ ((votes.filter (fun v => v.vote == "agree")).length : ℚ) /
          (votes.length : ℚ) ∧
        ((votes.filter (fun v => v.vote == "agree")).length : ℚ) / (votes.length : ℚ) ≤ 1
      constructor
      · rw [div_le_div_iff (by norm_num) hNQ]
        have h3 : (votes.length : ℚ) ≤
            2 * ((votes.filter (fun v => v.vote == "agree")).length : ℚ) := by
          exact_mod_cast Nat.le_of_lt hA2
        linarith
      · rw [div_le_one hNQ]
        exact_mod_cast haN
    · intro votes2 h2
      exact calculateConsensus_proj_eq votes2 votes now h2
  · by_cases hD2 : 2 * (votes.filter (fun v => v.vote == "disagree")).length > votes.length
    · have hcondD : ((votes.filter (fun v => v.vote == "disagree")).length : ℚ) >
          (votes.length : ℚ) / 2 := (gtHalf_iff _ _).mpr hD2
      have hncondA : ¬ (((votes.filter (fun v => v.vote == "agree")).length : ℚ) >
          (votes.length : ℚ) / 2) := fun hc => hA2 ((gtHalf_iff _ _).mp hc)
      have hNpos : 0 < votes.length := by omega
      have hNQ : (0 : ℚ) < (votes.length : ℚ) := by exact_mod_cast hNpos
      have hcc : calculateConsensus votes now =
          ⟨"consensus_" ++ toString now, "rejected",
           ((votes.filter (fun v => v.vote == "disagree")).length : ℚ) / (votes.length : ℚ),
           votes⟩ := by
        simp only [calculateConsensus]
        rw [if_neg hncondA, if_pos hcondD]
      refine ⟨?_, ?_, ?_, ?_, ?_, ?_, ?_, ?_⟩
      · rw [hcc]
        exact ⟨fun hcontra => by simp at hcontra, fun hcontra => absurd hcontra hA2⟩
      · rw [hcc]
        exact ⟨fun _ => hD2, fun _ => rfl⟩
      · rw [hcc]
        exact ⟨fun hcontra => by simp at hcontra, fun hcontra => absurd hD2 hcontra.2⟩
      · intro hcontra
        exact absurd hcontra hA2
      · intro _
        rw [hcc]
      · intro hcontra
        exact absurd hD2 hcontra.2
      · rw [hcc]
        show (1 : ℚ) / 2 ≤ ((votes.filter (fun v => v.vote == "disagree")).length : ℚ) /
            (votes.length : ℚ) ∧
          ((votes.filter (fun v => v.vote == "disagree")).length : ℚ) / (votes.length : ℚ) ≤ 1
        constructor
        · rw [div_le_div_iff (by norm_num) hNQ]
          have h3 : (votes.length : ℚ) ≤
              2 * ((votes.filter (fun v => v.vote == "disagree")).length : ℚ) := by
            exact_mod_cast Nat.le_of_lt hD2
          linarith
        · rw [div_le_one hNQ]
          exact_mod_cast hdN
      · intro votes2 h2
        exact calculateConsensus_proj_eq votes2 votes now h2
    · have hncondA : ¬ (((votes.filter (fun v => v.vote == "agree")).length : ℚ) >
          (votes.length : ℚ) / 2) := fun hc => hA2 ((gtHalf_iff _ _).mp hc)
      have hncondD : ¬ (((votes.filter (fun v => v.vote == "disagree")).length : ℚ) >
          (votes.length : ℚ) / 2) := fun hc => hD2 ((gtHalf_iff _ _).mp hc)
      have hcc : calculateConsensus votes now =
          ⟨"consensus_" ++ toString now, "deadlock", 1 / 2, votes⟩ := by
        simp only [calculateConsensus]
        rw [if_neg hncondA, if_neg hncondD]
      refine ⟨?_, ?_, ?_, ?_, ?_, ?_, ?_, ?_⟩
      · rw [hcc]
        exact ⟨fun hcontra => by simp at hcontra, fun hcontra => absurd hcontra hA2⟩
      · rw [hcc]
        exact ⟨fun hcontra => by simp at hcontra, fun hcontra => absurd hcontra hD2⟩
      · rw [hcc]
        exact ⟨fun _ => ⟨hA2, hD2⟩, fun _ => rfl⟩
      · intro hcontra
        exact absurd hcontra hA2
      · intro hcontra
        exact absurd hcontra hD2
      · intro _
        rw [hcc]
      · rw [hcc]
        show (1 : ℚ) / 2 ≤ (1 : ℚ) / 2 ∧ (1 : ℚ) / 2 ≤ 1
        exact ⟨le_refl _, by norm_num⟩
      · intro votes2 h2
        exact calculateConsensus_proj_eq votes2 votes now h2

/-- C4 witness: the tally law applied to the concrete vote map
`{a1: agree, a2: disagree, a3: agree}`, which is approved with confidence 2/3. -/
theorem calculateConsensus_tally_law_witness :
    (calculateConsensus [⟨"a1", "agree", "r1"⟩, ⟨"a2", "disagree", "r2"⟩,
        ⟨"a3", "agree", "r3"⟩] 7).result = "approved" ∧
    (calculateConsensus [⟨"a1", "agree", "r1"⟩, ⟨"a2", "disagree", "r2"⟩,
        ⟨"a3", "agree", "r3"⟩] 7).confidence = 2 / 3 := by
  have h := calculateConsensus_tally_law
    [⟨"a1", "agree", "r1"⟩, ⟨"a2", "disagree", "r2"⟩, ⟨"a3", "agree", "r3"⟩] 7
  refine ⟨h.1.mpr (by decide), ?_⟩
  have h4 := h.2.2.2.1 (by decide)
  have h5 : (List.filter (fun v => v.vote == "agree")
      ([⟨"a1", "agree", "r1"⟩, ⟨"a2", "disagree", "r2"⟩, ⟨"a3", "agree", "r3"⟩] :
        List VoteEntry)).length = 2 := by decide
  have h6 : ([⟨"a1", "agree", "r1"⟩, ⟨"a2", "disagree", "r2"⟩, ⟨"a3", "agree", "r3"⟩] :
      List VoteEntry).length = 3 := by decide
  rw [h4, h5, h6]
  norm_num

/-- Auxiliary: every durable-store producer call takes exactly one sequence
number: the counter advances to `st + 1` and the message carries it. -/
theorem produce_seq (now st : Nat) (op : DurableOp) :
    (produce now st op).1 = st + 1 ∧ (produce now st op).2.sequenceNumber = st + 1 := by
  cases op <;> exact ⟨rfl, rfl⟩

/-- Auxiliary: the k-th message of a producer trace carries sequence number
`st + k + 1`. -/
theorem produceTrace_get (now : Nat) (ops : List DurableOp) :
    ∀ (st k : Nat) (h : k < (produceTrace now st ops).length),
      ((produceTrace now st ops).get ⟨k, h⟩).sequenceNumber = st + k + 1 := by
  induction ops with
  | nil =>
      intro st k h
      simp [produceTrace] at h
  | cons op ops ih =>
      intro st k h
      cases k with
      | zero =>
          show (produce now st op).2.sequenceNumber = st + 0 + 1
          rw [(produce_seq now st op).2]
      | succ k =>
          have h2 : k < (produceTrace now (produce now st op).1 ops).length := by
            have h3 := h
            simp only [produceTrace, List.length_cons] at h3
            omega
          show ((produceTrace now (produce now st op).1 ops).get ⟨k, h2⟩).sequenceNumber
              = st + (k + 1) + 1
          rw [ih (produce now st op).1 k h2, (produce_seq now st op).1]
          omega

/-- C5: within one producer instance, any two durable-store messages (from any
of logFileEdit, saveWorkspaceSnapshot, logConsensusDecision,
logAgentCoordination, logConflictResolution, startWorkspaceSession,
endWorkspaceSession, regardless of topic) carry strictly increasing
sequence numbers: the later message has the strictly greater one. -/
theorem durable_sequence_monotonic (now st : Nat) (ops : List DurableOp) (i j : Nat)
    (hi : i < (produceTrace now st ops).length)
    (hj : j < (produceTrace now st ops).length)
    (hij : i < j) :
    ((produceTrace now st ops).get ⟨i, hi⟩).sequenceNumber <
      ((produceTrace now st ops).get ⟨j, hj⟩).sequenceNumber := by
  rw [produceTrace_get now ops st i hi, produceTrace_get now ops st j hj]
  omega

/-- C5 witness: two concrete producer calls on different topics, where the
second message carries the strictly greater sequence number. -/
theorem durable_sequence_monotonic_witness :
    ((produceTrace 0 0 [DurableOp.fileEdit "a" "w" "s" "f", DurableOp.snapshot "a" "w" "s"]).get
        ⟨0, by decide⟩).sequenceNumber <
      ((produceTrace 0 0 [DurableOp.fileEdit "a" "w" "s" "f", DurableOp.snapshot "a" "w" "s"]).get
        ⟨1, by decide⟩).sequenceNumber :=
  durable_sequence_monotonic 0 0 [DurableOp.fileEdit "a" "w" "s" "f", DurableOp.snapshot "a" "w" "s"]
    0 1 (by decide) (by decide) (by decide)

/-- Auxiliary: every single connection transition re-establishes the rollup
invariant, whatever the previous state was. -/
theorem healthStep_rollup (s : BridgeHealth) (e : HealthEvent) :
    HealthRollupOk (healthStep s e) := by
  cases e <;>
    cases hr : s.redisConnected <;>
      cases hk : s.kafkaConnected <;>
        simp [healthStep, updateOverallHealth, HealthRollupOk, hr, hk]

/-- Auxiliary: the rollup invariant is preserved along any event fold. -/
theorem foldl_health_rollup (evs : List HealthEvent) :
    ∀ s : BridgeHealth, HealthRollupOk s → HealthRollupOk (evs.foldl healthStep s) := by
  induction evs with
  | nil => intro s hs; exact hs
  | cons e evs ih =>
      intro s _
      exact ih (healthStep s e) (healthStep_rollup s e)

/-- C6: after any sequence of connect/disconnect/error transitions, the
bridge's overall health is healthy iff both connected flags are true,
offline iff both are false, and degraded iff exactly one is true. -/
theorem health_rollup_invariant (evs : List HealthEvent) :
    HealthRollupOk (runHealth evs) := by
  apply foldl_health_rollup
  simp [HealthRollupOk, initHealth]

/-- C7 counterexample: with `reconnect_attempts = 3` and
`reconnect_delay_ms = 100`, the failure chain from a fresh counter performs
exactly 3 connect invocations with linear delays 100, 200, 300 — three
consecutive failures exhaust the cap — yet no terminal `reconnect_failed`
event is emitted at that point, contradicting the claim that the terminal
event is emitted once `reconnect_attempts` consecutive failures occur. -/
theorem reconnect_no_terminal_at_exhaustion :
    (attemptReconnectAllFail 3 100 3 ⟨0, false⟩).2 =
      [RecEvent.scheduled 100, RecEvent.connectInvoked, RecEvent.attemptFailed 1,
       RecEvent.scheduled 200, RecEvent.connectInvoked, RecEvent.attemptFailed 2,
       RecEvent.scheduled 300, RecEvent.connectInvoked, RecEvent.attemptFailed 3] ∧
    RecEvent.reconnectFailed ∉ (attemptReconnectAllFail 3 100 3 ⟨0, false⟩).2 := by
  decide

/-- Auxiliary: a reconnect trigger with the counter already at or above the
cap emits the terminal event and schedules nothing. -/
theorem allFail_done (maxA delayMs fuel a0 : Nat) (h : maxA ≤ a0) :
    attemptReconnectAllFail maxA delayMs fuel ⟨a0, false⟩ =
      (⟨a0, false⟩, [RecEvent.reconnectFailed]) := by
  rw [attemptReconnectAllFail.eq_def]
  simp [h]

/-- Auxiliary: one unfolding of the failure chain below the cap. -/
theorem allFail_step (maxA delayMs fuel a0 : Nat) (h : a0 < maxA) :
    attemptReconnectAllFail maxA delayMs (fuel + 1) ⟨a0, false⟩ =
      if a0 + 1 < maxA then
        (⟨(attemptReconnectAllFail maxA delayMs fuel ⟨a0 + 1, false⟩).1.attempts, false⟩,
         [RecEvent.scheduled (delayMs * (a0 + 1)), RecEvent.connectInvoked,
          RecEvent.attemptFailed (a0 + 1)] ++
           (attemptReconnectAllFail maxA delayMs fuel ⟨a0 + 1, false⟩).2)
      else
        (⟨a0 + 1, false⟩,
         [RecEvent.scheduled (delayMs * (a0 + 1)), RecEvent.connectInvoked,
          RecEvent.attemptFailed (a0 + 1)]) := by
  rw [attemptReconnectAllFail.eq_def]
  simp [Nat.not_le.mpr h]

/-- Auxiliary: the failure chain from a counter strictly below the cap ends
with the counter at the cap and produces exactly the closed-form event trace. -/
theorem allFail_chain (maxA delayMs : Nat) :
    ∀ (fuel a0 : Nat), maxA - a0 ≤ fuel → a0 < maxA →
      attemptReconnectAllFail maxA delayMs fuel ⟨a0, false⟩ =
        (⟨maxA, false⟩, chainEvents delayMs a0 (maxA - a0)) := by
  intro fuel
  induction fuel with
  | zero =>
      intro a0 hfuel hlt
      omega
  | succ fuel ih =>
      intro a0 hfuel hlt
      rw [allFail_step maxA delayMs fuel a0 hlt]
      by_cases hlt2 : a0 + 1 < maxA
      · have hm : maxA - a0 = (maxA - (a0 + 1)) + 1 := by omega
        rw [if_pos hlt2, ih (a0 + 1) (by omega) hlt2, hm]
        simp [chainEvents]
      · have hm : maxA - a0 = 1 := by omega
        rw [if_neg hlt2, hm]
        simp [chainEvents]
        omega

/-- Auxiliary: the chain of `n` failing attempts invokes connect exactly `n`
times. -/
theorem chainEvents_count (delayMs : Nat) :
    ∀ (n a0 : Nat), (chainEvents delayMs a0 n).count RecEvent.connectInvoked = n := by
  intro n
  induction n with
  | zero => intro a0; simp [chainEvents]
  | succ n ih =>
      intro a0
      simp [chainEvents, List.count_cons, ih (a0 + 1)]

/-- Auxiliary: the chain of `n` failing attempts from counter `a0` schedules
the linear delays `delayMs * (a0 + 1), ..., delayMs * (a0 + n)`. -/
theorem chainEvents_delays (delayMs : Nat) :
    ∀ (n a0 : Nat), delaysOf (chainEvents delayMs a0 n) =
      (List.range n).map (fun k => delayMs * (a0 + k + 1)) := by
  intro n
  induction n with
  | zero => intro a0; simp [chainEvents, delaysOf]
  | succ n ih =>
      intro a0
      show delaysOf (RecEvent.scheduled (delayMs * (a0 + 1)) :: RecEvent.connectInvoked ::
          RecEvent.attemptFailed (a0 + 1) :: chainEvents delayMs (a0 + 1) n) = _
      have hev : delaysOf (RecEvent.scheduled (delayMs * (a0 + 1)) :: RecEvent.connectInvoked ::
          RecEvent.attemptFailed (a0 + 1) :: chainEvents delayMs (a0 + 1) n)
          = delayMs * (a0 + 1) :: delaysOf (chainEvents delayMs (a0 + 1) n) := by
        simp [delaysOf]
      rw [hev, ih (a0 + 1), List.range_succ_eq_map, List.map_cons, List.map_map]
      congr 1
      simp
      intro a ha
      exact Or.inl (by omega)

/-- Auxiliary: the failure chain never emits the terminal event. -/
theorem chainEvents_no_terminal (delayMs : Nat) :
    ∀ (n a0 : Nat), RecEvent.reconnectFailed ∉ chainEvents delayMs a0 n := by
  intro n
  induction n with
  | zero => intro a0; simp [chainEvents]
  | succ n ih =>
      intro a0
      simp [chainEvents]
      exact ih (a0 + 1)

/-- C7 amended: along the failure chain from counter `a0`, exactly
`maxAttempts - a0` connect invocations occur (so never more than
`maxAttempts` between resets), the k-th attempt is scheduled with delay
`delayMs * k` (linear ramp), the chain ends with the counter at the cap
without emitting the terminal event, and the terminal `reconnect_failed`
(with no further connect attempt) is emitted on the next reconnect trigger
after exhaustion — not at the moment of exhaustion. -/
theorem reconnect_cap_and_linear_backoff (maxA delayMs fuel a0 : Nat)
    (hfuel : maxA - a0 ≤ fuel) (ha : a0 ≤ maxA) :
    ((attemptReconnectAllFail maxA delayMs fuel ⟨a0, false⟩).2.count
        RecEvent.connectInvoked = maxA - a0) ∧
    (delaysOf (attemptReconnectAllFail maxA delayMs fuel ⟨a0, false⟩).2 =
        (List.range (maxA - a0)).map (fun k => delayMs * (a0 + k + 1))) ∧
    (a0 < maxA →
        RecEvent.reconnectFailed ∉ (attemptReconnectAllFail maxA delayMs fuel ⟨a0, false⟩).2) ∧
    ((attemptReconnectAllFail maxA delayMs fuel ⟨a0, false⟩).1.attempts = maxA) ∧
    ((attemptReconnectAllFail maxA delayMs fuel ⟨maxA, false⟩).2 =
        [RecEvent.reconnectFailed]) := by
  have hdone : attemptReconnectAllFail maxA delayMs fuel ⟨maxA, false⟩ =
      (⟨maxA, false⟩, [RecEvent.reconnectFailed]) :=
    allFail_done maxA delayMs fuel maxA (le_refl maxA)
  by_cases hlt : a0 < maxA
  · rw [allFail_chain maxA delayMs fuel a0 hfuel hlt, hdone]
    exact ⟨chainEvents_count delayMs (maxA - a0) a0,
           chainEvents_delays delayMs (maxA - a0) a0,
           fun _ => chainEvents_no_terminal delayMs (maxA - a0) a0,
           rfl, rfl⟩
  · have haeq : maxA ≤ a0 := by omega
    have h0 : maxA - a0 = 0 := by omega
    rw [allFail_done maxA delayMs fuel a0 haeq, hdone, h0]
    refine ⟨by simp, by simp [delaysOf], by omega, by simp; omega, rfl⟩

/-- C7 witness: the amended law applied at `reconnect_attempts = 3`,
`reconnect_delay_ms = 100` from a fresh counter: the scheduled delays are
exactly 100, 200, 300. -/
theorem reconnect_cap_and_linear_backoff_witness :
    delaysOf (attemptReconnectAllFail 3 100 3 ⟨0, false⟩).2 =
      (List.range 3).map (fun k => 100 * (0 + k + 1)) :=
  (reconnect_cap_and_linear_backoff 3 100 3 0 (by decide) (by decide)).2.1

/-- Auxiliary: looking up the key just written. -/
theorem alGet_alSet_self {α : Type} (l : List (String × α)) (k : String) (v : α) :
    alGet (alSet l k v) k = some v := by
  simp [alGet, alSet, List.find?]

/-- Auxiliary: writing one key does not disturb the binding of another. -/
theorem alGet_alSet_ne {α : Type} (l : List (String × α)) (k k2 : String) (v : α)
    (h : k2 ≠ k) : alGet (alSet l k v) k2 = alGet l k2 := by
  have hbeq : (k == k2) = false := by
    simp [Ne.symm h]
  induction l with
  | nil =>
      simp [alGet, alSet, alErase, List.find?, hbeq]
  | cons p t ih =>
      by_cases hp : p.1 = k
      · have h1 : (p.1 == k) = true := by simp [hp]
        have h2 : (p.1 == k2) = false := by simp [hp, Ne.symm h]
        simp only [alGet, alSet, alErase, List.filter_cons, h1, Bool.not_true,
          List.find?, hbeq] at ih ⊢
        simp only [h2]
        exact ih
      · have h1 : (p.1 == k) = false := by simp [hp]
        simp only [alGet, alSet, alErase, List.filter_cons, h1, Bool.not_false,
          List.find?, hbeq] at ih ⊢
        by_cases hp2 : p.1 = k2
        · have h2 : (p.1 == k2) = true := by simp [hp2]
          simp [h2]
        · have h2 : (p.1 == k2) = false := by simp [hp2]
          simp only [h2]
          exact ih

/-- C8 counterexample: with the fast store offline, agents `A` and `B` hold a
shared fallback read lock on `(ws1, a.ts)` (record agent `A`, readers list
`[B]`).  Agent `C` — matching no holder — releases the fabricated
reader-scoped id `ws1:a.ts:readers:C`: the call returns true, contradicting
the claim that a mismatched release returns false (the record and `B`'s hold
are nevertheless left in place). -/
theorem fallback_release_nonmember_returns_true :
    (fallbackLockRelease
        (fallbackFileLock (fallbackFileLock [] "A" "ws1" "a.ts" "read" 0).1
          "B" "ws1" "a.ts" "read" 1).1
        "ws1:a.ts:readers:C" "C").2 = true ∧
    alGet (fallbackFileLock (fallbackFileLock [] "A" "ws1" "a.ts" "read" 0).1
        "B" "ws1" "a.ts" "read" 1).1 "ws1:a.ts" =
      some ⟨"A", "read", 0, "ws1", "a.ts", some ["B"]⟩ ∧
    alGet (fallbackLockRelease
        (fallbackFileLock (fallbackFileLock [] "A" "ws1" "a.ts" "read" 0).1
          "B" "ws1" "a.ts" "read" 1).1
        "ws1:a.ts:readers:C" "C").1 "ws1:a.ts" =
      some ⟨"A", "read", 0, "ws1", "a.ts", some ["B"]⟩ := by
  decide

/-- C8 amended: fallback release authorization as the code implements it.
For an exclusive-style lock id, a caller that does not match the record's
`agent_id` gets false and the storage is untouched.  For a reader-scoped
lock id whose record carries a non-empty readers list not containing the
caller, the call returns true — not false as claimed — but removes no other
agent's hold: the record survives unchanged and every other key is
untouched.  A reader-scoped release against a record with no readers list,
or against a missing record, returns false and changes nothing. -/
theorem fallbackLockRelease_authorization (storage : List (String × FallbackLock))
    (lockId agentId : String) :
    (containsReaders lockId = false →
      ∀ lock, alGet storage lockId = some lock → lock.agentId ≠ agentId →
        fallbackLockRelease storage lockId agentId = (storage, false)) ∧
    (containsReaders lockId = true →
      ∀ lock rs, alGet storage (readersBaseKey lockId) = some lock →
        lock.readers = some rs → agentId ∉ rs → rs ≠ [] →
        (fallbackLockRelease storage lockId agentId).2 = true ∧
        alGet (fallbackLockRelease storage lockId agentId).1 (readersBaseKey lockId) =
          some lock ∧
        (∀ k, k ≠ readersBaseKey lockId →
          alGet (fallbackLockRelease storage lockId agentId).1 k = alGet storage k)) ∧
    (containsReaders lockId = true →
      ∀ lock, alGet storage (readersBaseKey lockId) = some lock → lock.readers = none →
        fallbackLockRelease storage lockId agentId = (storage, false)) ∧
    (alGet storage (if containsReaders lockId then readersBaseKey lockId else lockId) = none →
      fallbackLockRelease storage lockId agentId = (storage, false)) := by
  refine ⟨?_, ?_, ?_, ?_⟩
  · intro hcr lock hlock hne
    simp only [fallbackLockRelease, hcr, Bool.false_eq_true, if_false, hlock]
    simp [hne]
  · intro hcr lock rs hlock hrs hmem hne
    have hfilter : rs.filter (fun id => !(id == agentId)) = rs := by
      apply List.filter_eq_self.mpr
      intro a ha
      simp only [Bool.not_eq_false', beq_iff_eq, Bool.not_eq_eq_eq_not, Bool.not_true,
        beq_eq_false_iff_ne, ne_eq]
      intro he
      exact hmem (he ▸ ha)
    have hlockeq : { lock with readers := some rs } = lock := by
      cases lock
      simp only [FallbackLock.mk.injEq] at hrs ⊢
      simp_all
    have hrel : fallbackLockRelease storage lockId agentId =
        (alSet storage (readersBaseKey lockId) { lock with readers := some rs }, true) := by
      simp only [fallbackLockRelease, hcr, if_true, hlock, hrs, hfilter]
      simp [hne]
    rw [hrel, hlockeq]
    refine ⟨rfl, alGet_alSet_self storage (readersBaseKey lockId) lock, ?_⟩
    intro k hk
    exact alGet_alSet_ne storage (readersBaseKey lockId) k lock hk
  · intro hcr lock hlock hrs
    simp only [fallbackLockRelease, hcr, if_true, hlock, hrs]
  · intro hnone
    by_cases hcr : containsReaders lockId
    · rw [if_pos hcr] at hnone
      simp only [fallbackLockRelease, hcr, if_true, hnone]
    · rw [if_neg hcr] at hnone
      simp only [fallbackLockRelease, hcr, Bool.false_eq_true, if_false, hnone]

/-- C8 witness: an exclusive fallback lock held by `A`; `B`'s mismatched
release returns false and leaves the storage unchanged. -/
theorem fallbackLockRelease_authorization_witness :
    fallbackLockRelease [("ws1:a.ts", ⟨"A", "write", 0, "ws1", "a.ts", none⟩)]
      "ws1:a.ts" "B" =
      ([("ws1:a.ts", ⟨"A", "write", 0, "ws1", "a.ts", none⟩)], false) :=
  (fallbackLockRelease_authorization
      [("ws1:a.ts", ⟨"A", "write", 0, "ws1", "a.ts", none⟩)] "ws1:a.ts" "B").1
    (by decide) ⟨"A", "write", 0, "ws1", "a.ts", none⟩ (by decide) (by decide)

/-- Auxiliary: head-anchored literal matching is exactly prefix decomposition. -/
theorem startsWithChars_iff (p : List Char) :
    ∀ l, startsWithChars p l = true ↔ ∃ t, l = p ++ t := by
  induction p with
  | nil =>
      intro l
      simp [startsWithChars]
  | cons x p ih =>
      intro l
      cases l with
      | nil =>
          simp [startsWithChars]
      | cons c cs =>
          simp only [startsWithChars]
          by_cases hx : x = c
          · subst hx
            rw [if_pos rfl, ih cs]
            constructor
            · rintro ⟨t, rfl⟩
              exact ⟨t, rfl⟩
            · rintro ⟨t, ht⟩
              injection ht with h1 h2
              exact ⟨t, h2⟩
          · rw [if_neg hx]
            constructor
            · intro hfalse
              exact absurd hfalse (by simp)
            · rintro ⟨t, ht⟩
              injection ht with h1 h2
              exact absurd h1.symm hx

/-- Auxiliary: the greedy digit run taken from `ds ++ b` is exactly `ds` when
`ds` is all digits and `b` does not begin with one. -/
theorem takeDigits_all (ds : List Char) :
    ∀ b, (∀ c ∈ ds, c.isDigit = true) →
      (∀ c, b.head? = some c → c.isDigit = false) → takeDigits (ds ++ b) = ds := by
  induction ds with
  | nil =>
      intro b _ hb
      cases b with
      | nil => rfl
      | cons c t =>
          have hc : c.isDigit = false := hb c rfl
          simp [takeDigits, hc]
  | cons d ds ih =>
      intro b hd hb
      have hdig : d.isDigit = true := hd d (List.mem_cons_self d ds)
      simp only [List.cons_append, takeDigits, hdig, if_true]
      congr 1
      exact ih b (fun c hc => hd c (List.mem_cons_of_mem d hc)) hb

/-- Auxiliary: an anchored match exhibits `round_` followed by a digit at the
head of the list. -/
theorem matchRoundHere_occurrence (l ds : List Char) (h : matchRoundHere l = some ds) :
    RoundOccursAt l [] := by
  simp only [matchRoundHere] at h
  by_cases hs : startsWithChars roundTok l = true
  · rw [if_pos hs] at h
    obtain ⟨t, rfl⟩ := (startsWithChars_iff roundTok l).mp hs
    have hdrop : (roundTok ++ t).drop 6 = t := rfl
    rw [hdrop] at h
    cases ht : t with
    | nil =>
        rw [ht] at h
        simp [takeDigits] at h
    | cons c t2 =>
        rw [ht] at h
        by_cases hc : c.isDigit = true
        · exact ⟨c, t2, by simp, hc⟩
        · simp only [takeDigits, hc, if_false, Bool.false_eq_true] at h
          simp [Bool.not_eq_true] at hc
          simp [hc] at h
  · rw [if_neg hs] at h
    cases h

/-- Auxiliary: an anchored match at a decomposed head returns exactly the
digit run. -/
theorem matchRoundHere_exact (ds b : List Char) (hne : ds ≠ [])
    (hdig : ∀ c ∈ ds, c.isDigit = true)
    (hb : ∀ c, b.head? = some c → c.isDigit = false) :
    matchRoundHere (roundTok ++ (ds ++ b)) = some ds := by
  have hs : startsWithChars roundTok (roundTok ++ (ds ++ b)) = true :=
    (startsWithChars_iff roundTok _).mpr ⟨ds ++ b, rfl⟩
  have hdrop : (roundTok ++ (ds ++ b)).drop 6 = ds ++ b := rfl
  simp only [matchRoundHere, hs, if_true, hdrop]
  rw [takeDigits_all ds b hdig hb]
  cases ds with
  | nil => exact absurd rfl hne
  | cons d ds2 => rfl

/-- Auxiliary: a successful anchored match is also a successful scan. -/
theorem jsMatchRound_of_here (l ds : List Char) (h : matchRoundHere l = some ds) :
    jsMatchRound l = some ds := by
  cases l with
  | nil =>
      simp [matchRoundHere, startsWithChars, roundTok] at h
  | cons c cs =>
      simp only [jsMatchRound, h]

/-- Auxiliary: a successful scan exhibits an occurrence of `round_` followed
by a digit somewhere in the list. -/
theorem jsMatchRound_occurrence :
    ∀ l ds : List Char, jsMatchRound l = some ds → ∃ a, RoundOccursAt l a := by
  intro l
  induction l with
  | nil =>
      intro ds h
      cases h
  | cons c cs ih =>
      intro ds h
      simp only [jsMatchRound] at h
      cases hm : matchRoundHere (c :: cs) with
      | some ds0 =>
          exact ⟨[], matchRoundHere_occurrence (c :: cs) ds0 hm⟩
      | none =>
          rw [hm] at h
          obtain ⟨a, d, b, hab, hd⟩ := ih ds h
          exact ⟨c :: a, d, b, by rw [hab]; simp, hd⟩

/-- Auxiliary: the scan returns the digit run of the leftmost occurrence. -/
theorem jsMatchRound_first (ds : List Char) :
    ∀ (a b l : List Char), l = a ++ roundTok ++ ds ++ b → ds ≠ [] →
      (∀ c ∈ ds, c.isDigit = true) →
      (∀ c, b.head? = some c → c.isDigit = false) →
      (¬ ∃ a2, RoundOccursAt l a2 ∧ a2.length < a.length) →
      jsMatchRound l = some ds := by
  intro a
  induction a with
  | nil =>
      intro b l hl hne hdig hb _
      subst hl
      have hassoc : ([] : List Char) ++ roundTok ++ ds ++ b = roundTok ++ (ds ++ b) := by
        simp
      rw [hassoc]
      exact jsMatchRound_of_here _ ds (matchRoundHere_exact ds b hne hdig hb)
  | cons x a ih =>
      intro b l hl hne hdig hb hfirst
      subst hl
      have hl2 : (x :: a) ++ roundTok ++ ds ++ b = x :: (a ++ roundTok ++ ds ++ b) := by
        simp
      rw [hl2] at hfirst ⊢
      have hm : matchRoundHere (x :: (a ++ roundTok ++ ds ++ b)) = none := by
        cases hm2 : matchRoundHere (x :: (a ++ roundTok ++ ds ++ b)) with
        | none => rfl
        | some ds0 =>
            exact absurd
              ⟨[], matchRoundHere_occurrence _ ds0 hm2, by simp⟩
              hfirst
      simp only [jsMatchRound, hm]
      apply ih b (a ++ roundTok ++ ds ++ b) rfl hne hdig hb
      rintro ⟨a2, ⟨d, b2, hab, hd⟩, hlen⟩
      exact hfirst ⟨x :: a2, ⟨d, b2, by rw [hab]; simp, hd⟩, by simpa using hlen⟩

/-- C9: every message produced by logConsensusDecision carries
`metadata.consensusRound = extractConsensusRound(proposal_id)`; the extractor
returns 1 when no `round_<digits>` occurrence exists, and the decimal value
of the digit run of the leftmost occurrence `round_<digits>` otherwise. -/
theorem logConsensusDecision_round (st now : Nat) (ag ws sess pid : String) :
    ((produce now st (DurableOp.consensusDecision ag ws sess pid)).2.consensusRound =
        some (extractConsensusRound pid)) ∧
    ((¬ ∃ a, RoundOccursAt pid.data a) → extractConsensusRound pid = 1) ∧
    (∀ a ds b, pid.data = a ++ roundTok ++ ds ++ b → ds ≠ [] →
        (∀ c ∈ ds, c.isDigit = true) →
        (∀ c, b.head? = some c → c.isDigit = false) →
        (¬ ∃ a2, RoundOccursAt pid.data a2 ∧ a2.length < a.length) →
        extractConsensusRound pid = digitsToNat ds) := by
  refine ⟨rfl, ?_, ?_⟩
  · intro hno
    simp only [extractConsensusRound]
    cases hj : jsMatchRound pid.data with
    | none => rfl
    | some ds =>
        exact absurd (jsMatchRound_occurrence pid.data ds hj) hno
  · intro a ds b hab hne hdig hb hfirst
    simp only [extractConsensusRound]
    rw [jsMatchRound_first ds a b pid.data hab hne hdig hb hfirst]

/-- C9 witness: the round law applied at `proposal_id = "round_7"`: the
produced message carries consensus round 7. -/
theorem logConsensusDecision_round_witness :
    (produce 0 0 (DurableOp.consensusDecision "a" "w" "s" "round_7")).2.consensusRound =
      some 7 := by
  have h := logConsensusDecision_round 0 0 "a" "w" "s" "round_7"
  have h3 := h.2.2 [] ['7'] [] (by decide) (by decide) (by decide)
    (by intro c hc; simp at hc)
    (by rintro ⟨a2, hocc, hlen⟩; simp at hlen)
  rw [h.1, h3]
  decide

/-- C10: a successful release through a reader-scoped lock id (containing
`:readers:`) publishes its `lock_released` envelope with empty-string
workspace and file path metadata, while a successful exclusive/write release
publishes the workspace id and file path stored in the lock record. -/
theorem release_event_location_fields (s : RedisState) (lockId agentId : String) (now : Nat) :
    (containsReaders lockId = true →
        (releaseFileLock s lockId agentId now).2.2 = true →
        (releaseFileLock s lockId agentId now).2.1.head? =
          some (RedisEvent.stream FILE_LOCKS
            ⟨"file_lock", agentId, "high", "lock_released", "read",
             agentId, "", "", "read"⟩)) ∧
    (containsReaders lockId = false →
        (releaseFileLock s lockId agentId now).2.2 = true →
        ∃ lock, redisGet s now lockId = some lock ∧ lock.agentId = agentId ∧
          (releaseFileLock s lockId agentId now).2.1.head? =
            some (RedisEvent.stream FILE_LOCKS
              ⟨"file_lock", agentId, "high", "lock_released", lock.lockType,
               agentId, lock.workspaceId, lock.filePath, lock.lockType⟩)) := by
  constructor
  · intro hcr hsucc
    simp only [releaseFileLock, hcr, if_true] at hsucc ⊢
    by_cases hr : (redisSrem s (readersBaseKey lockId ++ ":readers") agentId).2 ≠ 0
    · rw [if_pos hr]
      rfl
    · rw [if_neg hr] at hsucc
      cases hsucc
  · intro hcr hsucc
    cases hget : redisGet s now lockId with
    | none =>
        have hrel : releaseFileLock s lockId agentId now = (s, [], false) := by
          simp only [releaseFileLock, hcr, Bool.false_eq_true, if_false, hget]
        rw [hrel] at hsucc
        cases hsucc
    | some lock =>
        by_cases hag : lock.agentId = agentId
        · have hrel : releaseFileLock s lockId agentId now =
              ((processLockQueue (redisDel s lockId) lockId).1,
               RedisEvent.stream FILE_LOCKS (publishLockEvent "lock_released" agentId
                   lock.workspaceId lock.filePath lock.lockType) ::
                 (processLockQueue (redisDel s lockId) lockId).2,
               true) := by
            simp only [releaseFileLock, hcr, Bool.false_eq_true, if_false, hget, if_pos hag]
          rw [hrel]
          exact ⟨lock, rfl, hag, rfl⟩
        · have hrel : releaseFileLock s lockId agentId now = (s, [], false) := by
            simp only [releaseFileLock, hcr, Bool.false_eq_true, if_false, hget, if_neg hag]
          rw [hrel] at hsucc
          cases hsucc

/-- C10 witness: releasing the single reader `A` of `(ws1, a.ts)` publishes
the `lock_released` envelope with empty workspace and file path metadata. -/
theorem release_event_location_fields_witness :
    (releaseFileLock readersHeldState "autogen:state:locks:ws1:a.ts:readers:A" "A" 5).2.1.head? =
      some (RedisEvent.stream FILE_LOCKS
        ⟨"file_lock", "A", "high", "lock_released", "read", "A", "", "", "read"⟩) :=
  (release_event_location_fields readersHeldState
      "autogen:state:locks:ws1:a.ts:readers:A" "A" 5).1 (by decide) (by decide)

end Autogen
